import Mathlib

/-!
Verification of the formstate validation engine: a shallow embedding of the
rule normalizer, rule evaluator, result normalizer, validation coordinator
(token/staleness protocol), error aggregator and form constructor, with
theorems settling the specification claims.
-/

namespace Formstate

/-- JavaScript-style plain values: the data that flows through field values,
rule results and error lists. `undef`/`null` model `undefined`/`null`;
`listV` models arrays; `objV` models plain records (ordered key/value pairs). -/
inductive Value where
  | undef : Value
  | null : Value
  | boolV (b : Bool) : Value
  | strV (s : String) : Value
  | numV (n : Int) : Value
  | listV (vs : List Value) : Value
  | objV (kvs : List (String × Value)) : Value
deriving Repr

/-- Result of invoking a rule's callable: either an immediate (synchronous)
value, or a deferred value (a JS `Promise`) that eventually resolves to a
value or rejects. `undefined` returns are `.sync .undef`. -/
inductive RuleResult where
  | sync (v : Value) : RuleResult
  | deferred (outcome : Except Unit Value) : RuleResult
deriving Repr

/-- True iff the result is a deferred value (`result instanceof Promise`). -/
def RuleResult.isDeferred : RuleResult → Bool
  | .deferred _ => true
  | .sync _ => false

/-- True iff the result is a deferred value that rejects. -/
def RuleResult.isRejected : RuleResult → Bool
  | .deferred (.error _) => true
  | _ => false

/-- A rule's callable. `isAsync` models
`fn.constructor.name === "AsyncFunction"`. `run` is invoked with the list of
argument lists of all invocations performed so far (making the callable's
side effects observable as a trace) and the current positional arguments;
a pure callable simply ignores the first argument. -/
structure Callable where
  isAsync : Bool
  run : List (List Value) → List Value → RuleResult

/-- A callable with no observable side effects: its result depends only on
its positional arguments. -/
def Callable.pure (isAsync : Bool) (f : List Value → RuleResult) : Callable :=
  ⟨isAsync, fun _ => f⟩

/-- A canonical (internal) rule: `{ rule, autoValidate? }`. `rule = none`
models `rule: undefined`; `autoValidate = none` models an absent
`autoValidate` key (defaulted to `true` at evaluation time via `?? true`). -/
structure InternalRule where
  rule : Option Callable
  autoValidate : Option Bool

/-- A normalized validation result `{ valid, errors }`. -/
structure InternalValidationResult where
  valid : Bool
  errors : List Value
deriving Repr

/-! ## Rule evaluator: `processValidationObject` (validation.ts) -/

/-- Embedding of `processValidationObject(rule, callArguments, shouldValidate,
promise)`. The extra `log` argument threads the trace of callable
invocations (each entry is the argument list of one invocation), making the
source's call effects explicit; the returned pair is (final trace, returned
value). Mirrors the source: the `noAutoValidation` gate
(`!(rule.autoValidate ?? true) && !shouldValidate`), the `noPromiseValidation`
gate (async callable while `promise` is false), the absent-callable check,
then a first invocation whose result — if it is a Promise while `promise` is
false — is discarded in favour of `undefined`, and otherwise a second
invocation whose result is returned. -/
def processValidationObject (rule : InternalRule) (callArguments : List Value)
    (shouldValidate : Bool) (promise : Bool) (log : List (List Value)) :
    List (List Value) × RuleResult :=
  let noAutoValidation := !(rule.autoValidate.getD true) && !shouldValidate
  let noPromiseValidation := ((rule.rule.map Callable.isAsync).getD false) && !promise
  match rule.rule with
  | none => (log, .sync .undef)
  | some c =>
    if noAutoValidation || noPromiseValidation then (log, .sync .undef)
    else
      let result := c.run log callArguments
      let log1 := log ++ [callArguments]
      if result.isDeferred && !promise then (log1, .sync .undef)
      else (log1 ++ [callArguments], c.run log1 callArguments)

/-! ## Result normalizer: `createInternalValidationResults` (validation.ts) -/

/-- Embedding of the `mapErrors` closure: `false` becomes the literal string
`"not valid"`, `true` becomes `undefined`, everything else is kept as-is. -/
def mapErrors : Value → Value
  | .boolV false => .strV "not valid"
  | .boolV true => .undef
  | e => e

/-- Embedding of the `errorFilter` closure:
`e !== undefined && e !== null`. -/
def errorFilter : Value → Bool
  | .undef => false
  | .null => false
  | _ => true

/-- Embedding of `createInternalValidationResults(errors)`: a list input is
processed elementwise, any other input is wrapped into a one-element list;
entries are mapped through `mapErrors` and filtered through `errorFilter`;
`valid` is `!_errors?.length`. -/
def createInternalValidationResults (errors : Value) : InternalValidationResult :=
  let es := match errors with
    | .listV vs => (vs.map mapErrors).filter errorFilter
    | e => ([e].map mapErrors).filter errorFilter
  ⟨es.isEmpty, es⟩

/-! ## Async collection: `validationPromise` (validation.ts) -/

/-- One level of `Array.prototype.flat()`: array elements are spliced in,
all other elements are kept. -/
def flatOne (vs : List Value) : List Value :=
  vs.flatMap fun v => match v with
    | .listV ws => ws
    | v => [v]

/-- Semantics of `Promise.all` over a mixed list of immediate and deferred
results: if any deferred element rejects the whole collection rejects,
otherwise it resolves to the list of settled values. -/
def settleAll (rs : List RuleResult) : Except Unit (List Value) :=
  if rs.any RuleResult.isRejected then .error ()
  else .ok (rs.map fun r => match r with
    | .sync v => v
    | .deferred (.ok v) => v
    | .deferred (.error _) => .undef)

/-- Embedding of `validationPromise(validation)`:
`Promise.all(validation).then(r => createInternalValidationResults(r.flat()))
.catch(() => createInternalValidationResults([]))`. -/
def validationPromise (validation : List RuleResult) : InternalValidationResult :=
  match settleAll validation with
  | .ok result => createInternalValidationResults (.listV (flatOne result))
  | .error _ => createInternalValidationResults (.listV [])

/-! ## Rule normalizer: `createValidationObject` (createFields.ts) -/

/-- The accepted shapes of an entry in a user-supplied rule list: a bare
callable, an object carrying an own `rule` property (with an optional
`autoValidate`), or `undefined`. -/
inductive KindOfRule where
  | fn (c : Callable) : KindOfRule
  | obj (rule : Option Callable) (autoValidate : Option Bool) : KindOfRule
  | undefEntry : KindOfRule

/-- Embedding of the `mapper` closure of `createValidationObject`: an entry
that has an own `rule` property is returned as-is; anything else (a bare
callable, or `undefined` — `value?.hasOwnProperty("rule")` is falsy for
both) is wrapped as `{ rule: value }`. -/
def kindOfRuleMapper : KindOfRule → KindOfRule
  | .obj r a => .obj r a
  | .fn c => .obj (some c) none
  | .undefEntry => .obj none none

/-- Embedding of `createValidationObject(fn)`: `undefined` input yields `[]`,
otherwise every entry is run through the mapper. -/
def createValidationObject (fn : Option (List KindOfRule)) : List KindOfRule :=
  match fn with
  | none => []
  | some l => l.map kindOfRuleMapper

/-! ## Deep clone and deep equality (cloneDeep.ts; utils/deepEqual) -/

mutual

/-- Embedding of `cloneDeep(value)` (utils/cloneDeep.ts): non-objects are
returned as-is, arrays are cloned elementwise, records are cloned per own
key. -/
def cloneDeep : Value → Value
  | .undef => .undef
  | .null => .null
  | .boolV b => .boolV b
  | .strV s => .strV s
  | .numV n => .numV n
  | .listV vs => .listV (cloneDeepList vs)
  | .objV kvs => .objV (cloneDeepObj kvs)

/-- Elementwise clone of an array (the `value.map(cloneDeep)` branch). -/
def cloneDeepList : List Value → List Value
  | [] => []
  | v :: vs => cloneDeep v :: cloneDeepList vs

/-- Per-key clone of a record (the `for key in value` branch). -/
def cloneDeepObj : List (String × Value) → List (String × Value)
  | [] => []
  | (k, v) :: kvs => (k, cloneDeep v) :: cloneDeepObj kvs

end

mutual

/-- Modelled from the spec: the change comparison of the automatic pass
"uses deep-equality on cloned values"; the source imports `deepEqual` from
`utils/deepEqual`, a file absent from the repository snapshot. Structural
equality of plain values. -/
def deepEqual : Value → Value → Bool
  | .undef, .undef => true
  | .null, .null => true
  | .boolV a, .boolV b => a == b
  | .strV a, .strV b => a == b
  | .numV a, .numV b => a == b
  | .listV xs, .listV ys => deepEqualList xs ys
  | .objV xs, .objV ys => deepEqualObj xs ys
  | _, _ => false

/-- Elementwise deep equality of arrays. -/
def deepEqualList : List Value → List Value → Bool
  | [], [] => true
  | x :: xs, y :: ys => deepEqual x y && deepEqualList xs ys
  | _, _ => false

/-- Keywise deep equality of records. -/
def deepEqualObj : List (String × Value) → List (String × Value) → Bool
  | [], [] => true
  | (k, v) :: xs, (l, w) :: ys => k == l && deepEqual v w && deepEqualObj xs ys
  | _, _ => false

end

/-! ## Change detection of the automatic pass: `validationWatcher`
(validation.ts) -/

/-- Truth value of `Array.isArray(value)`. -/
def isArrayValue : Value → Bool
  | .listV _ => true
  | _ => false

/-- Truth value of the `typeof value` equals `"object"` test: true for
records, arrays and `null`. -/
def isObjectTypeof : Value → Bool
  | .objV _ => true
  | .listV _ => true
  | .null => true
  | _ => false

/-- JavaScript strict inequality `value !== prev` in the one situation the
watcher uses it: `prev` is the field's `fieldPrevValue` snapshot, which the
source always stores as a fresh `cloneDeep` of the then-current value.
Primitives compare by value; records and arrays compare by reference, and a
live value is never the same reference as its own fresh clone, so the
object/array cases are `true` (unequal). -/
def jsStrictNeqClone (value prev : Value) : Bool :=
  match value, prev with
  | .undef, .undef => false
  | .null, .null => false
  | .boolV a, .boolV b => !(a == b)
  | .strV a, .strV b => !(a == b)
  | .numV a, .numV b => !(a == b)
  | _, _ => true

/-- Embedding of the filter predicate of `validationWatcher` deciding which
fields count as changed: if `!Array.isArray(field.value) ||
typeof field.value !== "object"` the comparison is
`field.value !== field[fieldPrevValue]`, otherwise it is
`!deepEqual(cloneDeep(field.value), field[fieldPrevValue])`. -/
def fieldChanged (value prev : Value) : Bool :=
  if !(isArrayValue value) || !(isObjectTypeof value) then
    jsStrictNeqClone value prev
  else
    !(deepEqual (cloneDeep value) prev)

/-- The per-field data the watcher's filter reads: the live value and the
`fieldPrevValue` snapshot. -/
structure WatchField where
  name : String
  value : Value
  prevValue : Value

/-- The `unequalValues` selection of `validationWatcher`: exactly the fields
whose comparison reports a change are re-validated by the automatic pass. -/
def watcherUnequalValues (fields : List WatchField) : List WatchField :=
  fields.filter fun f => fieldChanged f.value f.prevValue

/-! ## Form aggregator: `getAllFields` and `collectErrors` (validation.ts) -/

/-- The per-field validation state the aggregator reads and the coordinator
writes. -/
structure FieldV where
  valid : Bool
  errors : List Value
  pending : Bool
deriving Repr

/-- One entry of `formState.value.fields`: either a plain field record, or
the array-of-records variant (an array whose every element is a non-null
record of leaf fields, the shape `isArrayField` detects). -/
inductive FieldEntry where
  | plain (f : FieldV) : FieldEntry
  | group (gs : List (List (String × FieldV))) : FieldEntry

/-- True for a plain (non-array) entry. -/
def FieldEntry.isPlain : FieldEntry → Bool
  | .plain _ => true
  | .group _ => false

/-- Embedding of `getAllFields(formState)`: the non-array entries (in
declaration order), followed by every leaf field of every array entry. -/
def getAllFields (fields : List (String × FieldEntry)) : List FieldV :=
  (fields.filterMap fun kf => match kf.2 with
    | .plain f => some f
    | .group _ => none) ++
  (fields.flatMap fun kf => match kf.2 with
    | .plain _ => []
    | .group gs => gs.flatMap fun g => g.map (·.2))

/-- Truthiness of `formState.value.fields[key].valid`: a plain field yields
its `valid` flag; an array entry has no `valid` property, so the read is
`undefined` (falsy). -/
def FieldEntry.validTruthy : FieldEntry → Bool
  | .plain f => f.valid
  | .group _ => false

/-- The value of `formState.value.fields[key].errors`: a plain field's error
list, or `undefined` (`none`) for an array entry. -/
def FieldEntry.errorsRead : FieldEntry → Option (List Value)
  | .plain f => some f.errors
  | .group _ => none

/-- The form-state components `collectErrors` touches or can reach. -/
structure FormC where
  fields : List (String × FieldEntry)
  valid : Bool
  dirty : Bool
  touched : Bool
  pending : Bool
  errors : List Value
  errorFields : List (String × Option (List Value))

/-- The `{valid, errors, errorFields}` view `collectErrors` returns. -/
structure FormValidationView where
  valid : Bool
  errors : List Value
  errorFields : List (String × Option (List Value))

/-- Embedding of `collectErrors(formState, validationResults?)`: computes
`valid` over all leaf fields and the optional form-level result
(`validationResults?.valid ?? true`), concatenates the leaf error lists (in
`getAllFields` order) with `validationResults?.errors ?? []`, assigns the
result to `formState.value.errors`, builds `errorFields` over the top-level
keys (a key is included iff `fields[key].valid` is falsy, mapped to
`fields[key].errors`), assigns it to `formState.value.errorFields`, and
returns the recomputed view together with the updated state. -/
def collectErrors (formState : FormC) (validationResults : Option InternalValidationResult) :
    FormC × FormValidationView :=
  let fields := getAllFields formState.fields
  let valid := fields.all (·.valid) &&
    ((validationResults.map (·.valid)).getD true)
  let errors := (fields.flatMap (·.errors)) ++
    ((validationResults.map (·.errors)).getD [])
  let state1 := { formState with errors := errors }
  let errorFields := state1.fields.filterMap fun kf =>
    if kf.2.validTruthy then none else some (kf.1, kf.2.errorsRead)
  let state2 := { state1 with errorFields := errorFields }
  (state2, ⟨valid, errors, errorFields⟩)

/-! ## Validation coordinator: `createValidateFieldFunction` and
`validateFormInternal` (validation.ts)

A validation pass interleaves with other passes only at `await` points, so
the coordinator is modelled as a small-step system: the state carries the
form's current validation lock and the fields' validation state, and each
action is one atomic piece of a pass as executed between suspension
points. -/

/-- The form-state components the coordinator touches: the field map (plain
fields keyed by name), the current validation lock
(`formState[formValidationLock]`, `none` = `undefined`), the aggregate error
state and the suppression flag. -/
structure FormV where
  fields : List (String × FieldV)
  lock : Option String
  errors : List Value
  errorFields : List (String × Option (List Value))
  pending : Bool
  ignoreValidation : Bool

/-- One atomic coordinator action:
* `startPass t` — a pass begins: `createValidateFieldFunction` generates a
  fresh id `t` and stores it as the form's current lock;
* `fieldStart n` — the `validate` closure sets `field.pending = true` before
  awaiting the field's rules;
* `fieldResult n t r` — a field's rule evaluation (begun under captured
  token `t`) resolves with result `r` and the guarded write runs;
* `formResult r` — a `validateFormInternal` invocation resolves with
  form-level result `r` and `collectErrors` runs;
* `clearLock` — `formState[formValidationLock] = undefined` (field/form
  reset). -/
inductive VAction where
  | startPass (token : String) : VAction
  | fieldStart (name : String) : VAction
  | fieldResult (name : String) (token : String) (res : InternalValidationResult) : VAction
  | formResult (res : InternalValidationResult) : VAction
  | clearLock : VAction

/-- The guarded write of the `validate` closure of
`createValidateFieldFunction`: when the field's result resolves,
`field.valid`/`field.errors` are overwritten only if
`formState[formValidationLock] === validationLockId` (the token captured at
the pass's start); `field.pending = false` is set regardless. -/
def applyFieldResult (fv : FormV) (name : String) (token : String)
    (res : InternalValidationResult) : FormV :=
  { fv with fields := fv.fields.map fun kf =>
      if kf.1 = name then
        if fv.lock = some token then
          (kf.1, ⟨res.valid, res.errors, false⟩)
        else
          (kf.1, ⟨kf.2.valid, kf.2.errors, false⟩)
      else kf }

/-- The resolution of a `validateFormInternal` call: unless
`formState[formIgnoreValidation]` is set, `collectErrors` recomputes and
writes the form's `errors`/`errorFields` from the current fields and the
form-level result — the source performs no validation-lock comparison
here. -/
def applyFormResult (fv : FormV) (res : InternalValidationResult) : FormV :=
  if fv.ignoreValidation then fv
  else
    { fv with
      errors := (fv.fields.flatMap fun kf => kf.2.errors) ++ res.errors
      errorFields := fv.fields.filterMap fun kf =>
        if kf.2.valid then none else some (kf.1, some kf.2.errors) }

/-- One step of the coordinator. -/
def stepV (fv : FormV) : VAction → FormV
  | .startPass t => { fv with lock := some t }
  | .fieldStart n => { fv with fields := fv.fields.map fun kf =>
      if kf.1 = n then (kf.1, ⟨kf.2.valid, kf.2.errors, true⟩) else kf }
  | .fieldResult n t r => applyFieldResult fv n t r
  | .formResult r => applyFormResult fv r
  | .clearLock => { fv with lock := none }

/-- Execution of a sequence of interleaved coordinator actions. -/
def runV (fv : FormV) (acts : List VAction) : FormV :=
  acts.foldl stepV fv

/-- The validation state (name, `valid`, `errors`) of every field — the data
the staleness guard protects; `pending` is deliberately not included. -/
def validationState (fields : List (String × FieldV)) :
    List (String × Bool × List Value) :=
  fields.map fun kf => (kf.1, kf.2.valid, kf.2.errors)

/-! ## Form construction: `getInitState` and `useForm` (useForm.ts) -/

/-- The reserved top-level key names of an initial state. -/
def reservedKeys : List String := ["formState", "values", "context"]

/-- Truth value of the `value?.hasOwnProperty("value")` check: true iff the
entry is a non-null record with an own `value` key. -/
def hasOwnValueProp : Value → Bool
  | .objV kvs => kvs.any fun kv => kv.1 == "value"
  | _ => false

/-- One step of the `reduce` inside `getInitState`: a reserved key throws
`"UseForm: You cannot use the reserved key: <key>"`; an entry already
carrying an own `value` property is spread as-is; any other entry is wrapped
as `{ value }`. -/
def getInitStateStep (acc : List (String × Value)) (kv : String × Value) :
    Except String (List (String × Value)) :=
  if kv.1 ∈ reservedKeys then
    .error ("UseForm: You cannot use the reserved key: " ++ kv.1)
  else if hasOwnValueProp kv.2 then
    .ok (acc ++ [(kv.1, kv.2)])
  else
    .ok (acc ++ [(kv.1, Value.objV [("value", kv.2)])])

/-- Embedding of `getInitState(initState)`: a missing (`undefined`) initial
state throws `"UseForm: You must provide an initial state"`; otherwise the
entries are folded through `getInitStateStep`. A thrown error is modelled as
`Except.error` with the error's message. -/
def getInitState (initState : Option (List (String × Value))) :
    Except String (List (String × Value)) :=
  match initState with
  | none => .error "UseForm: You must provide an initial state"
  | some entries => entries.foldlM getInitStateStep []

/-- The two non-throwing outcomes of `useForm`: the registered handle of an
existing named form, or a freshly constructed form (its transformed field
map). -/
inductive UseFormOutcome where
  | reused (name : String) : UseFormOutcome
  | created (fields : List (String × Value)) : UseFormOutcome

/-- Embedding of the construction path of `useForm(formName?, initState?,
options?)`: when no initial state is given and a name is, the name is looked
up in the named-form registry — the registered handle is returned, or
construction throws `"UseForm: Form with name <name> does not exist. Did you
forget to initialize it?"`; otherwise the initial state is transformed by
`getInitState` (which throws on a missing state or a reserved key) and a new
form is built. The registry is the process-wide `store` (the Nuxt plugin
installs it), modelled by its registered names. -/
def useFormModel (formName : Option String) (initState : Option (List (String × Value)))
    (registry : List String) : Except String UseFormOutcome :=
  match initState, formName with
  | none, some n =>
    if n ∈ registry then .ok (.reused n)
    else .error ("UseForm: Form with name " ++ n ++
      " does not exist. Did you forget to initialize it?")
  | _, _ => (getInitState initState).map .created

/-! ## Specification-side definitions (stated from the spec's words, to be
compared with the source embeddings above) -/

/-- What a single raw rule-result value contributes to the error list,
following the spec: `true`, `undefined` and `null` contribute nothing,
`false` contributes the literal string `"not valid"`, anything else is
contributed as-is. -/
def specContribution : Value → Option Value
  | .boolV true => none
  | .undef => none
  | .null => none
  | .boolV false => some (.strV "not valid")
  | v => some v

/-- The error list the spec prescribes for a raw result: a list input is
taken elementwise, any other input stands alone; each element contributes
per `specContribution`. -/
def specContributedErrors (raw : Value) : List Value :=
  (match raw with
    | .listV vs => vs
    | v => [v]).filterMap specContribution

/-- Every leaf field of the form in field-declaration order: each plain
entry in place, each array entry expanded in place into the leaf fields of
its element records. -/
def declLeafFields (fields : List (String × FieldEntry)) : List FieldV :=
  fields.flatMap fun kf => match kf.2 with
    | .plain f => [f]
    | .group gs => gs.flatMap fun g => g.map (·.2)

/-- The `{valid, errors, errorFields}` view the spec prescribes for
`collectErrors`: `valid` iff every field is valid and the (optional)
form-level result is valid; `errors` is the concatenation of every field's
error list in field-declaration order followed by the form-level error
list; `errorFields` contains exactly the fields currently marked invalid,
each mapped to its error list. -/
def specCollectView (fields : List (String × FieldEntry))
    (vr : Option InternalValidationResult) : FormValidationView :=
  { valid := (declLeafFields fields).all (·.valid) && ((vr.map (·.valid)).getD true)
  , errors := ((declLeafFields fields).flatMap (·.errors)) ++ ((vr.map (·.errors)).getD [])
  , errorFields := fields.filterMap fun kf => match kf.2 with
      | .plain f => if f.valid then none else some (kf.1, some f.errors)
      | .group _ => none }

/-! ## Concrete states used by counterexamples and witnesses -/

/-- A field whose value is a plain (non-array) record, deep-equal to its
`fieldPrevValue` snapshot (the snapshot is its fresh deep clone). -/
def c8ObjField : WatchField :=
  ⟨"objInput", .objV [("a", .numV 1)], .objV [("a", .numV 1)]⟩

/-- A field whose value is an array, deep-equal to its `fieldPrevValue`
snapshot. -/
def c8ArrField : WatchField :=
  ⟨"arrInput", .listV [.numV 1], .listV [.numV 1]⟩

/-- A form state whose single field `input1` is invalid with one error while
the form-level `errors` list is still empty. -/
def c6Form : FormC :=
  { fields := [("input1", .plain ⟨false, [.strV "e1"], false⟩)]
  , valid := true, dirty := false, touched := false, pending := false
  , errors := [], errorFields := [] }

/-- A variant of `c6Form` whose non-field components all differ. -/
def c6FormAlt : FormC :=
  { fields := [("input1", .plain ⟨false, [.strV "e1"], false⟩)]
  , valid := false, dirty := true, touched := true, pending := true
  , errors := [.strV "old"], errorFields := [("stale", none)] }

/-- A form whose first declared entry is an array-of-records group (one
element record with one invalid leaf) and whose second entry is a plain
invalid field. -/
def c5Form : FormC :=
  { fields := [("g", .group [[("x", ⟨false, [.strV "ge"], false⟩)]]),
               ("p", .plain ⟨false, [.strV "pe"], false⟩)]
  , valid := true, dirty := false, touched := false, pending := false
  , errors := [], errorFields := [] }

/-- A plain-field form matching the claim's example: two invalid fields with
errors `["e1","e2"]` and `["e3"]`. -/
def c5PlainForm : FormC :=
  { fields := [("field1", .plain ⟨false, [.strV "e1", .strV "e2"], false⟩),
               ("field2", .plain ⟨false, [.strV "e3"], false⟩)]
  , valid := true, dirty := false, touched := false, pending := false
  , errors := [], errorFields := [] }

/-- A form state whose current validation token is `"t2"` while an earlier
pass (captured token `"t1"`) still has its form-level result in flight. -/
def c1Form : FormV :=
  { fields := [("a", ⟨true, [], false⟩)]
  , lock := some "t2"
  , errors := [.strV "fresh"]
  , errorFields := []
  , pending := false
  , ignoreValidation := false }

/-! ## Helper lemmas -/

/-- Mapping raw result values through `mapErrors` and filtering through
`errorFilter` computes exactly the spec's per-element contributions. -/
theorem mapErrors_filter_eq_filterMap (vs : List Value) :
    (vs.map mapErrors).filter errorFilter = vs.filterMap specContribution := by
  induction vs with
  | nil => rfl
  | cons v vs ih =>
    cases v with
    | undef => simpa [mapErrors, errorFilter, specContribution] using ih
    | null => simpa [mapErrors, errorFilter, specContribution] using ih
    | boolV b =>
      cases b <;> simpa [mapErrors, errorFilter, specContribution] using ih
    | strV s => simpa [mapErrors, errorFilter, specContribution] using ih
    | numV n => simpa [mapErrors, errorFilter, specContribution] using ih
    | listV l => simpa [mapErrors, errorFilter, specContribution] using ih
    | objV o => simpa [mapErrors, errorFilter, specContribution] using ih

/-- The mapper of `createValidationObject` is idempotent on single
entries. -/
theorem kindOfRuleMapper_idem (k : KindOfRule) :
    kindOfRuleMapper (kindOfRuleMapper k) = kindOfRuleMapper k := by
  cases k <;> rfl

/-! ## Claim theorems -/

/-- C3: result normalization maps `true`, `undefined` and `null` to no
contributed error, maps `false` to the literal string `"not valid"`,
contributes every other value as-is (a list input taken elementwise, then
filtered), and sets `valid` to true iff the contributed error count is
zero; in particular the three concrete examples of the claim hold. -/
theorem createInternalValidationResults_spec :
    (∀ raw : Value,
      (createInternalValidationResults raw).errors = specContributedErrors raw ∧
      ((createInternalValidationResults raw).valid = true ↔
        specContributedErrors raw = [])) ∧
    createInternalValidationResults (.boolV true) = ⟨true, []⟩ ∧
    createInternalValidationResults (.boolV false) = ⟨false, [.strV "not valid"]⟩ ∧
    createInternalValidationResults (.listV [.strV "e1", .undef, .strV "e2"]) =
      ⟨false, [.strV "e1", .strV "e2"]⟩ := by
  refine ⟨fun raw => ?_, rfl, rfl, rfl⟩
  cases raw with
  | boolV b =>
    cases b <;>
      simp [createInternalValidationResults, specContributedErrors,
        mapErrors_filter_eq_filterMap, mapErrors, errorFilter, specContribution,
        List.isEmpty_iff]
  | _ =>
    simp [createInternalValidationResults, specContributedErrors,
      mapErrors_filter_eq_filterMap, mapErrors, errorFilter, specContribution,
      List.isEmpty_iff]

/-- C9: rule normalization is idempotent and total on the accepted shapes:
normalizing twice equals normalizing once, `undefined` input normalizes to
the empty list, an entry already shaped as `{rule: ...}` is kept as-is
preserving its explicit `autoValidate`, and a bare callable is wrapped as
`{rule: callable}` without setting `autoValidate`. -/
theorem createValidationObject_idempotent :
    (∀ rules : Option (List KindOfRule),
      createValidationObject (some (createValidationObject rules)) =
        createValidationObject rules) ∧
    createValidationObject none = [] ∧
    (∀ (r : Option Callable) (a : Option Bool),
      kindOfRuleMapper (.obj r a) = .obj r a) ∧
    (∀ c : Callable, kindOfRuleMapper (.fn c) = .obj (some c) none) := by
  refine ⟨fun rules => ?_, rfl, fun r a => rfl, fun c => rfl⟩
  cases rules with
  | none => rfl
  | some l =>
    simp only [createValidationObject, List.map_map]
    exact List.map_congr_left fun k _ => kindOfRuleMapper_idem k

/-- C4: when awaiting the collected deferred results rejects for any reason
(any deferred element of the collection rejects), the pass resolves to
`{valid: true, errors: []}` instead of propagating the rejection — a
rejected asynchronous rule contributes no error and never fails the
pass. -/
theorem validationPromise_failOpen :
    ∀ validation : List RuleResult,
      (∃ r ∈ validation, r.isRejected = true) →
      validationPromise validation = ⟨true, []⟩ := by
  intro rs h
  have hany : rs.any RuleResult.isRejected = true := List.any_eq_true.mpr h
  simp [validationPromise, settleAll, hany, createInternalValidationResults]

/-- Witness for C4: a single rejecting deferred result yields the fail-open
`{valid: true, errors: []}`. -/
theorem validationPromise_failOpen_witness :
    validationPromise [.deferred (.error ())] = ⟨true, []⟩ :=
  validationPromise_failOpen [.deferred (.error ())]
    ⟨.deferred (.error ()), List.mem_singleton.mpr rfl, rfl⟩

/-- C2: `processValidationObject` returns `undefined` without invoking the
callable when the callable is absent, when `autoValidate` is false and
`shouldValidate` is false, or when the callable is asynchronous and async
evaluation is not allowed; when the gates pass but a synchronous invocation
yields a deferred value while async evaluation is not allowed, that deferred
value is discarded and `undefined` is returned (after that one invocation);
otherwise the callable is invoked with the positional arguments and its
result is returned unchanged (stated for effect-free callables, whose result
depends only on the arguments). The invocation trace (`log`) makes
"without invoking" observable: it is left untouched exactly in the gated
cases. -/
theorem processValidationObject_gating :
    (∀ (a : Option Bool) (args : List Value) (sv p : Bool) (log : List (List Value)),
      processValidationObject ⟨none, a⟩ args sv p log = (log, .sync .undef)) ∧
    (∀ (c : Callable) (args : List Value) (p : Bool) (log : List (List Value)),
      processValidationObject ⟨some c, some false⟩ args false p log =
        (log, .sync .undef)) ∧
    (∀ (c : Callable) (a : Option Bool) (args : List Value) (sv : Bool)
      (log : List (List Value)),
      c.isAsync = true →
      processValidationObject ⟨some c, a⟩ args sv false log = (log, .sync .undef)) ∧
    (∀ (c : Callable) (a : Option Bool) (args : List Value) (sv : Bool)
      (log : List (List Value)),
      (!(a.getD true) && !sv) = false →
      c.isAsync = false →
      (c.run log args).isDeferred = true →
      processValidationObject ⟨some c, a⟩ args sv false log =
        (log ++ [args], .sync .undef)) ∧
    (∀ (isA : Bool) (f : List Value → RuleResult) (a : Option Bool)
      (args : List Value) (sv p : Bool) (log : List (List Value)),
      (!(a.getD true) && !sv) = false →
      (isA && !p) = false →
      ((f args).isDeferred && !p) = false →
      processValidationObject ⟨some (Callable.pure isA f), a⟩ args sv p log =
        (log ++ [args, args], f args)) := by
  refine ⟨fun a args sv p log => rfl, fun c args p log => rfl,
    fun c a args sv log h => ?_, fun c a args sv log h1 h2 h3 => ?_,
    fun isA f a args sv p log h1 h2 h3 => ?_⟩
  · simp [processValidationObject, h]
  · simp [processValidationObject, h1, h2, h3]
  · simp [processValidationObject, Callable.pure, h1, h2, h3]

/-- Witness for C2: at concrete inputs, an async callable is skipped during
a sync pass, a sync callable returning a deferred value during a sync pass
is invoked once and its value discarded, and a plain sync callable's result
is returned after its gates pass. -/
theorem processValidationObject_gating_witness :
    processValidationObject
      ⟨some ⟨true, fun _ _ => .deferred (.ok (.strV "async error"))⟩, none⟩
      [.strV "x"] true false [] = ([], .sync .undef) ∧
    processValidationObject
      ⟨some ⟨false, fun _ _ => .deferred (.ok (.strV "late"))⟩, none⟩
      [.strV "x"] true false [] = ([[.strV "x"]], .sync .undef) ∧
    processValidationObject
      ⟨some (Callable.pure false (fun _ => .sync (.strV "some error"))), none⟩
      [.strV "arg1", .strV "arg2"] true false [] =
      ([[.strV "arg1", .strV "arg2"], [.strV "arg1", .strV "arg2"]],
        .sync (.strV "some error")) :=
  ⟨processValidationObject_gating.2.2.1
      ⟨true, fun _ _ => .deferred (.ok (.strV "async error"))⟩ none
      [.strV "x"] true [] rfl,
    processValidationObject_gating.2.2.2.1
      ⟨false, fun _ _ => .deferred (.ok (.strV "late"))⟩ none
      [.strV "x"] true [] rfl rfl rfl,
    processValidationObject_gating.2.2.2.2 false
      (fun _ => .sync (.strV "some error")) none
      [.strV "arg1", .strV "arg2"] true false [] rfl rfl rfl⟩

/-- C10: whenever `processValidationObject` decides to run a rule — the
gating checks pass and the first invocation's result is not a deferred
value being discarded by a sync pass — the callable is invoked twice with
the same positional arguments (the trace grows by `[args, args]`), and the
value returned is the result of the second invocation. -/
theorem processValidationObject_doubleInvocation :
    ∀ (c : Callable) (a : Option Bool) (args : List Value) (sv p : Bool)
      (log : List (List Value)),
      (!(a.getD true) && !sv) = false →
      (c.isAsync && !p) = false →
      ((c.run log args).isDeferred && !p) = false →
      processValidationObject ⟨some c, a⟩ args sv p log =
        (log ++ [args, args], c.run (log ++ [args]) args) := by
  intro c a args sv p log h1 h2 h3
  simp [processValidationObject, h1, h2, h3]

/-- Witness for C10: a callable that reports the number of invocations
performed before it runs is invoked twice and the returned value is the
second invocation's result. -/
theorem processValidationObject_doubleInvocation_witness :
    processValidationObject
      ⟨some ⟨false, fun log _ => .sync (.numV log.length)⟩, none⟩
      [.strV "v"] true true [] =
      ([[.strV "v"], [.strV "v"]], .sync (.numV 1)) :=
  processValidationObject_doubleInvocation
    ⟨false, fun log _ => .sync (.numV log.length)⟩ none [.strV "v"] true true []
    rfl rfl rfl

/-- The fold of `getInitState` throws iff some entry uses a reserved key,
regardless of the accumulator. -/
theorem foldlM_getInitStateStep_error (entries : List (String × Value)) :
    ∀ acc : List (String × Value),
      (∃ e, entries.foldlM getInitStateStep acc = Except.error e) ↔
        ∃ kv ∈ entries, kv.1 ∈ reservedKeys := by
  induction entries with
  | nil => intro acc; simp [List.foldlM_nil, pure, Except.pure]
  | cons kv entries ih =>
    intro acc
    by_cases hres : kv.1 ∈ reservedKeys
    · refine ⟨fun _ => ⟨kv, List.mem_cons_self kv entries, hres⟩, fun _ => ?_⟩
      refine ⟨"UseForm: You cannot use the reserved key: " ++ kv.1, ?_⟩
      simp only [List.foldlM_cons, getInitStateStep, if_pos hres]
      rfl
    · by_cases hval : hasOwnValueProp kv.2
      · have hstep : getInitStateStep acc kv = .ok (acc ++ [(kv.1, kv.2)]) := by
          simp [getInitStateStep, hres, hval]
        simp only [List.foldlM_cons, hstep, bind, Except.bind, List.mem_cons]
        rw [ih]
        constructor
        · rintro ⟨kv', h1, h2⟩; exact ⟨kv', Or.inr h1, h2⟩
        · rintro ⟨kv', h1 | h1, h2⟩
          · exact absurd (h1 ▸ h2) hres
          · exact ⟨kv', h1, h2⟩
      · have hstep : getInitStateStep acc kv =
            .ok (acc ++ [(kv.1, Value.objV [("value", kv.2)])]) := by
          simp [getInitStateStep, hres, hval]
        simp only [List.foldlM_cons, hstep, bind, Except.bind, List.mem_cons]
        rw [ih]
        constructor
        · rintro ⟨kv', h1, h2⟩; exact ⟨kv', Or.inr h1, h2⟩
        · rintro ⟨kv', h1 | h1, h2⟩
          · exact absurd (h1 ▸ h2) hres
          · exact ⟨kv', h1, h2⟩

/-- C7: form construction fails synchronously with a thrown error in exactly
these cases — the initial state is missing while no registered named form is
being reused, the initial state uses a reserved key (`formState`, `values`,
`context`), or a named form is requested by name only and the name is not
registered. The error is the call's result (never swallowed), and no other
input — in particular no field value — makes construction throw. -/
theorem useForm_construction_errors :
    ∀ (formName : Option String) (initState : Option (List (String × Value)))
      (registry : List String),
      (∃ e, useFormModel formName initState registry = .error e) ↔
        ((initState = none ∧ formName = none) ∨
          (initState = none ∧ ∃ n, formName = some n ∧ n ∉ registry) ∨
          (∃ entries, initState = some entries ∧
            ∃ kv ∈ entries, kv.1 ∈ reservedKeys)) := by
  intro formName initState registry
  cases initState with
  | none =>
    cases formName with
    | none => simp [useFormModel, getInitState, Except.map]
    | some n => by_cases hreg : n ∈ registry <;> simp [useFormModel, hreg]
  | some entries =>
    have hm : useFormModel formName (some entries) registry =
        (entries.foldlM getInitStateStep []).map .created := by
      cases formName <;> rfl
    cases hfold : entries.foldlM getInitStateStep [] with
    | error e =>
      simp only [hm, hfold, Except.map]
      constructor
      · intro _
        exact Or.inr (Or.inr ⟨entries, rfl,
          (foldlM_getInitStateStep_error entries []).mp ⟨e, hfold⟩⟩)
      · intro _; exact ⟨e, rfl⟩
    | ok v =>
      simp only [hm, hfold, Except.map]
      constructor
      · rintro ⟨e, he⟩; exact absurd he (by simp)
      · rintro (⟨h, _⟩ | ⟨h, _⟩ | ⟨entries', he, hkv⟩)
        · exact absurd h (by simp)
        · exact absurd h (by simp)
        · injection he with he'
          subst he'
          obtain ⟨e, he2⟩ := (foldlM_getInitStateStep_error entries []).mpr hkv
          rw [hfold] at he2
          exact absurd he2 (by simp)

/-- C8: evaluation of the watcher's change comparison at the failing input.
The claim says a field whose value is deep-equal to its previous snapshot is
never re-validated by the automatic pass, the comparison being deep equality
on cloned values. The watcher's condition
`!Array.isArray(v) || typeof v !== "object"` routes every non-array value —
including plain records — to the strict comparison `v !== prev`, and `prev`
is always a fresh deep clone, never the same reference; so a record-valued
field that is deep-equal to its snapshot is selected for re-validation
anyway. Arrays are the only values that reach `deepEqual` and behave as
claimed. -/
theorem validationWatcher_object_deepEqual_revalidated :
    deepEqual (cloneDeep c8ObjField.value) c8ObjField.prevValue = true ∧
    fieldChanged c8ObjField.value c8ObjField.prevValue = true ∧
    watcherUnequalValues [c8ObjField] = [c8ObjField] ∧
    deepEqual (cloneDeep c8ArrField.value) c8ArrField.prevValue = true ∧
    fieldChanged c8ArrField.value c8ArrField.prevValue = false ∧
    watcherUnequalValues [c8ArrField] = [] :=
  ⟨rfl, rfl, rfl, rfl, rfl, rfl⟩

/-- Counterexample to C6: `collectErrors` does not leave the form state
unchanged — at `c6Form` it overwrites `formState.errors` (and
`errorFields`) with the recomputed values, so the state's error list differs
before and after the call. -/
theorem collectErrors_mutates_counterexample :
    c6Form.errors = [] ∧ c6Form.errorFields = [] ∧
    (collectErrors c6Form none).1.errors = [.strV "e1"] ∧
    (collectErrors c6Form none).1.errorFields = [("input1", some [.strV "e1"])] ∧
    (collectErrors c6Form none).1.errors ≠ c6Form.errors := by
  refine ⟨rfl, rfl, rfl, rfl, ?_⟩
  have h1 : (collectErrors c6Form none).1.errors = [Value.strV "e1"] := rfl
  have h2 : c6Form.errors = [] := rfl
  rw [h1, h2]
  simp

/-- C6 (amended): `collectErrors` always fully recomputes its
`{valid, errors, errorFields}` view from the fields and the supplied
form-level result alone (its output does not depend on the form's previous
`errors`/`errorFields` or flags), writes the recomputed `errors` and
`errorFields` into the form state, and leaves every other component of the
form state — the fields included — unchanged. -/
theorem collectErrors_recomputes_frame :
    ∀ (fs : FormC) (vr : Option InternalValidationResult),
      (collectErrors fs vr).1.fields = fs.fields ∧
      (collectErrors fs vr).1.valid = fs.valid ∧
      (collectErrors fs vr).1.dirty = fs.dirty ∧
      (collectErrors fs vr).1.touched = fs.touched ∧
      (collectErrors fs vr).1.pending = fs.pending ∧
      (collectErrors fs vr).1.errors = (collectErrors fs vr).2.errors ∧
      (collectErrors fs vr).1.errorFields = (collectErrors fs vr).2.errorFields ∧
      (∀ fs₂ : FormC, fs₂.fields = fs.fields →
        (collectErrors fs₂ vr).2 = (collectErrors fs vr).2) := by
  intro fs vr
  refine ⟨rfl, rfl, rfl, rfl, rfl, rfl, rfl, fun fs₂ h => ?_⟩
  simp [collectErrors, h]

/-- Witness for the amended C6: at two concrete form states sharing the same
fields but differing in every other component, `collectErrors` returns the
same recomputed view. -/
theorem collectErrors_recomputes_frame_witness :
    (collectErrors c6FormAlt none).2 = (collectErrors c6Form none).2 :=
  (collectErrors_recomputes_frame c6Form none).2.2.2.2.2.2.2 c6FormAlt rfl

/-- `getAllFields` and the declaration-order leaf list agree on `all`
(they enumerate the same leaf fields, in different orders). -/
theorem all_getAllFields (fields : List (String × FieldEntry)) (p : FieldV → Bool) :
    (getAllFields fields).all p = (declLeafFields fields).all p := by
  induction fields with
  | nil => rfl
  | cons kf rest ih =>
    obtain ⟨k, e⟩ := kf
    cases e with
    | plain f =>
      simp only [getAllFields, declLeafFields, List.filterMap_cons,
        List.flatMap_cons, List.all_append, List.all_cons, List.nil_append,
        List.all_nil, Bool.true_and, Bool.and_true] at ih ⊢
      rw [Bool.and_assoc]
      exact congrArg (p f && ·) ih
    | group gs =>
      simp only [getAllFields, declLeafFields, List.filterMap_cons,
        List.flatMap_cons, List.all_append, List.all_cons] at ih ⊢
      rw [← ih]
      rw [← Bool.and_assoc, Bool.and_comm ((List.filterMap _ rest).all p),
        Bool.and_assoc]

/-- On a form whose entries are all plain fields, `getAllFields` enumerates
the fields in declaration order. -/
theorem getAllFields_of_plain (fields : List (String × FieldEntry))
    (h : ∀ kf ∈ fields, kf.2.isPlain = true) :
    getAllFields fields = declLeafFields fields := by
  induction fields with
  | nil => rfl
  | cons kf rest ih =>
    have hkf := h kf (List.mem_cons_self kf rest)
    have hrest : ∀ kf' ∈ rest, kf'.2.isPlain = true :=
      fun kf' h' => h kf' (List.mem_cons_of_mem kf h')
    obtain ⟨k, e⟩ := kf
    cases e with
    | plain f =>
      simp only [getAllFields, declLeafFields, List.filterMap_cons,
        List.flatMap_cons, List.nil_append, List.cons_append,
        List.singleton_append] at ih ⊢
      rw [ih hrest]
    | group gs => simp [FieldEntry.isPlain] at hkf

/-- On a form whose entries are all plain fields, the `errorFields`
computation of `collectErrors` matches the spec's description. -/
theorem errorFields_of_plain (fields : List (String × FieldEntry))
    (h : ∀ kf ∈ fields, kf.2.isPlain = true) :
    (fields.filterMap fun kf =>
      if kf.2.validTruthy then none else some (kf.1, kf.2.errorsRead)) =
      (fields.filterMap fun kf => match kf.2 with
        | .plain f => if f.valid then none else some (kf.1, some f.errors)
        | .group _ => none) := by
  induction fields with
  | nil => rfl
  | cons kf rest ih =>
    have hkf := h kf (List.mem_cons_self kf rest)
    have hrest : ∀ kf' ∈ rest, kf'.2.isPlain = true :=
      fun kf' h' => h kf' (List.mem_cons_of_mem kf h')
    obtain ⟨k, e⟩ := kf
    cases e with
    | plain f =>
      rw [List.filterMap_cons, List.filterMap_cons, ih hrest]
      rfl
    | group gs => simp [FieldEntry.isPlain] at hkf

/-- Counterexample to C5: with an array-of-records entry declared before a
plain field, `collectErrors` lists the plain field's errors before the array
entry's leaf errors — not field-declaration order — and its `errorFields`
includes the array entry's key (whose `valid` read is `undefined`, hence
falsy) mapped to an undefined error list rather than exactly the invalid
fields. -/
theorem collectErrors_order_counterexample :
    (collectErrors c5Form none).2.errors = [.strV "pe", .strV "ge"] ∧
    (specCollectView c5Form.fields none).errors = [.strV "ge", .strV "pe"] ∧
    (collectErrors c5Form none).2.errors ≠ (specCollectView c5Form.fields none).errors ∧
    (collectErrors c5Form none).2.errorFields =
      [("g", none), ("p", some [.strV "pe"])] := by
  refine ⟨rfl, rfl, ?_, rfl⟩
  have h1 : (collectErrors c5Form none).2.errors = [Value.strV "pe", Value.strV "ge"] := rfl
  have h2 : (specCollectView c5Form.fields none).errors =
      [Value.strV "ge", Value.strV "pe"] := rfl
  rw [h1, h2]
  simp

/-- C5 (amended): `collectErrors` returns `valid == true` iff every leaf
field is valid and the (possibly omitted) form-level result is valid
(omitted counts as valid) — this holds for every form state; and on every
form state whose entries are all plain fields, the returned view is exactly
the spec's: `errors` is the concatenation of every field's error list in
field-declaration order followed by the form-level error list, and
`errorFields` contains exactly the invalid fields mapped to their error
lists. -/
theorem collectErrors_spec_amended :
    (∀ (fs : FormC) (vr : Option InternalValidationResult),
      (collectErrors fs vr).2.valid =
        ((declLeafFields fs.fields).all (·.valid) &&
          ((vr.map (·.valid)).getD true))) ∧
    (∀ (fs : FormC) (vr : Option InternalValidationResult),
      (∀ kf ∈ fs.fields, kf.2.isPlain = true) →
      (collectErrors fs vr).2 = specCollectView fs.fields vr) := by
  constructor
  · intro fs vr
    simp only [collectErrors, all_getAllFields]
  · intro fs vr h
    simp only [collectErrors, specCollectView, getAllFields_of_plain fs.fields h,
      errorFields_of_plain fs.fields h]

/-- Witness for the amended C5: at the claim's concrete example — two
invalid plain fields and a valid form-level result — the returned view is
the spec's view, with `errors == ["e1","e2","e3"]`, `valid == false` and
`errorFields` mapping exactly the two fields. -/
theorem collectErrors_spec_amended_witness :
    (collectErrors c5PlainForm (some ⟨true, []⟩)).2 =
      specCollectView c5PlainForm.fields (some ⟨true, []⟩) ∧
    (collectErrors c5PlainForm (some ⟨true, []⟩)).2.errors =
      [.strV "e1", .strV "e2", .strV "e3"] ∧
    (collectErrors c5PlainForm (some ⟨true, []⟩)).2.valid = false ∧
    (collectErrors c5PlainForm (some ⟨true, []⟩)).2.errorFields =
      [("field1", some [.strV "e1", .strV "e2"]), ("field2", some [.strV "e3"])] :=
  ⟨collectErrors_spec_amended.2 c5PlainForm (some ⟨true, []⟩)
      (by simp [c5PlainForm, FieldEntry.isPlain]),
    rfl, rfl, rfl⟩

/-- Applying a field result whose captured token is not the form's current
lock changes no field's validation state. -/
theorem validationState_applyFieldResult_stale (fv : FormV) (n t : String)
    (r : InternalValidationResult) (h : fv.lock ≠ some t) :
    validationState (applyFieldResult fv n t r).fields = validationState fv.fields := by
  simp only [applyFieldResult, validationState, List.map_map]
  refine List.map_congr_left fun kf _ => ?_
  by_cases hk : kf.1 = n
  · simp [Function.comp, hk, if_neg h]
  · simp [Function.comp, hk]

/-- Once the form's lock differs from `t1`, no interleaved action other
than a fresh `startPass t1` can make it equal `t1` again. -/
theorem runV_lock_ne (t1 : String) (acts : List VAction) :
    ∀ fv : FormV, fv.lock ≠ some t1 → (VAction.startPass t1) ∉ acts →
      (runV fv acts).lock ≠ some t1 := by
  induction acts with
  | nil => intro fv h _; exact h
  | cons a acts ih =>
    intro fv h hacts
    have hna : a ≠ VAction.startPass t1 :=
      fun he => hacts (he ▸ List.mem_cons_self a acts)
    have hnacts : VAction.startPass t1 ∉ acts :=
      fun hm => hacts (List.mem_cons_of_mem a hm)
    refine ih (stepV fv a) ?_ hnacts
    cases a with
    | startPass t =>
      have ht : t ≠ t1 := fun he => hna (by rw [he])
      simp [stepV, ht]
    | fieldStart n => exact h
    | fieldResult n t r => exact h
    | formResult r =>
      have hl : (stepV fv (.formResult r)).lock = fv.lock := by
        simp only [stepV, applyFormResult]
        split <;> rfl
      rw [hl]; exact h
    | clearLock => simp [stepV]

/-- C1 (amended): when a pass starts, its token is stored as the form's
current validation token; a field result is written into
`field.valid`/`field.errors` exactly when the current token still equals
the token captured at the pass's start, a result carried by an older token
never overwrites field validation state written by (or after) a newer pass
— through any interleaving of later passes, field writes and resets — and
`field.pending` is set to false regardless; the form-level result, however,
is written into the form's error state unconditionally (no token
comparison) whenever validation is not suppressed. -/
theorem validation_token_staleness :
    (∀ (fv : FormV) (t : String), (stepV fv (.startPass t)).lock = some t) ∧
    (∀ (fv : FormV) (n t : String) (r : InternalValidationResult),
      fv.lock = some t →
      (stepV fv (.fieldResult n t r)).fields =
        fv.fields.map fun kf =>
          if kf.1 = n then (kf.1, ⟨r.valid, r.errors, false⟩) else kf) ∧
    (∀ (fv : FormV) (n t : String) (r : InternalValidationResult),
      fv.lock ≠ some t →
      validationState (stepV fv (.fieldResult n t r)).fields =
        validationState fv.fields) ∧
    (∀ (fv : FormV) (n t : String) (r : InternalValidationResult) (k : String)
      (f : FieldV), (k, f) ∈ (stepV fv (.fieldResult n t r)).fields → k = n →
      f.pending = false) ∧
    (∀ (fv : FormV) (t1 t2 : String) (acts : List VAction) (n : String)
      (r : InternalValidationResult),
      t1 ≠ t2 → (VAction.startPass t1) ∉ acts →
      validationState
        (stepV (runV (stepV fv (.startPass t2)) acts) (.fieldResult n t1 r)).fields =
        validationState (runV (stepV fv (.startPass t2)) acts).fields) ∧
    (∀ (fv : FormV) (r : InternalValidationResult),
      fv.ignoreValidation = false →
      (stepV fv (.formResult r)).errors =
        (fv.fields.flatMap fun kf => kf.2.errors) ++ r.errors) := by
  refine ⟨fun fv t => rfl, ?_, ?_, ?_, ?_, ?_⟩
  · intro fv n t r h
    simp only [stepV, applyFieldResult, h]
    refine List.map_congr_left fun kf _ => ?_
    by_cases hk : kf.1 = n <;> simp [hk]
  · intro fv n t r h
    exact validationState_applyFieldResult_stale fv n t r h
  · intro fv n t r k f hmem hk
    simp only [stepV, applyFieldResult, List.mem_map] at hmem
    obtain ⟨kf, hkf, heq⟩ := hmem
    by_cases hkn : kf.1 = n
    · rw [if_pos hkn] at heq
      by_cases hl : fv.lock = some t
      · rw [if_pos hl] at heq
        injection heq with h1 h2
        rw [← h2]
      · rw [if_neg hl] at heq
        injection heq with h1 h2
        rw [← h2]
    · rw [if_neg hkn] at heq
      exact absurd (show kf.1 = n by rw [heq]; exact hk) hkn
  · intro fv t1 t2 acts n r h12 hacts
    have hlock : (runV (stepV fv (.startPass t2)) acts).lock ≠ some t1 := by
      refine runV_lock_ne t1 acts _ ?_ hacts
      intro he
      exact h12 (Option.some.inj he).symm
    exact validationState_applyFieldResult_stale _ n t1 r hlock
  · intro fv r h
    simp [stepV, applyFormResult, h]

/-- Witness for the amended C1: a pass captures token `"t1"`, a newer pass
starts with token `"t2"` and writes field `a`; applying the stale `"t1"`
field result afterwards leaves the newer validation state in place. -/
theorem validation_token_staleness_witness :
    validationState
      (stepV
        (runV (stepV ⟨[("a", ⟨true, [], false⟩)], some "t1", [], [], false, false⟩
            (.startPass "t2"))
          [.fieldResult "a" "t2" ⟨false, [.strV "new"]⟩])
        (.fieldResult "a" "t1" ⟨false, [.strV "stale"]⟩)).fields =
      validationState
        (runV (stepV ⟨[("a", ⟨true, [], false⟩)], some "t1", [], [], false, false⟩
            (.startPass "t2"))
          [.fieldResult "a" "t2" ⟨false, [.strV "new"]⟩]).fields ∧
    validationState
      (runV (stepV ⟨[("a", ⟨true, [], false⟩)], some "t1", [], [], false, false⟩
          (.startPass "t2"))
        [.fieldResult "a" "t2" ⟨false, [.strV "new"]⟩]).fields =
      [("a", false, [.strV "new"])] :=
  ⟨validation_token_staleness.2.2.2.2.1
      ⟨[("a", ⟨true, [], false⟩)], some "t1", [], [], false, false⟩
      "t1" "t2" [.fieldResult "a" "t2" ⟨false, [.strV "new"]⟩] "a"
      ⟨false, [.strV "stale"]⟩ (by decide) (by simp),
    rfl⟩

/-- Counterexample to C1: the claim requires the form-level result to be
written into the form's error state only if the current validation token
still equals the token captured at the pass's start. At `c1Form` the
current token is `"t2"`, yet the resolution of a form-level pass captured
under the older token `"t1"` still overwrites the form's error state —
`validateFormInternal` performs no token comparison. -/
theorem validateFormInternal_no_token_guard_counterexample :
    c1Form.lock = some "t2" ∧ ("t1" : String) ≠ "t2" ∧
    (stepV c1Form (.formResult ⟨false, [.strV "stale"]⟩)).errors = [.strV "stale"] ∧
    (stepV c1Form (.formResult ⟨false, [.strV "stale"]⟩)).errors ≠ c1Form.errors := by
  refine ⟨rfl, by decide, rfl, ?_⟩
  have h1 : (stepV c1Form (.formResult ⟨false, [.strV "stale"]⟩)).errors =
      [Value.strV "stale"] := rfl
  have h2 : c1Form.errors = [Value.strV "fresh"] := rfl
  rw [h1, h2]
  simp

end Formstate
